import Mathlib

/-!
Shallow embedding of `src/monitor_uploads.py` (airdc-monitor): the transfer
reconciliation / notification-deduplication state machine of `main`.

The HTTP collaborators are modelled as inputs: the fetched transfer list is a
`List Transfer` argument (a fetch error is an empty list, as
`get_active_uploads` returns `[]` on any failure), and the outcome of
`send_telegram_message` for each attempted notification is a delivery oracle
`Transfer → Bool` (`true` = the send succeeded).  Fields of a transfer that
only feed the rendered message text (size, bytes_transferred, speed, user)
are omitted: they do not influence the reconciler's state or control flow.
Wall-clock `time.time()` is a `Nat` supplied per cycle.
-/

/-- One element of the JSON array returned by `/api/v1/transfers`, restricted
to the fields `main` branches on.  `download` is `none` when the key is
absent (`transfer.get('download', True)` then yields `True`); `id` is `none`
when absent (`transfer.get('id')`); `name` is `none` when absent
(`transfer.get('name', '')` then yields `''`); `status` is the value of
`transfer.get('status', {}).get('id')`. -/
structure Transfer where
  download : Option Bool
  id : Option String
  name : Option String
  status : Option String
  deriving DecidableEq, Repr

/-- `main`'s loop-carried state (lines 87-91): `active_uploads` is the dict
from transfer key to last observed status (an association list with unique
keys, in insertion order, like a Python dict), `notified_files` the set of
already-notified names, `initial_scan` the first-execution flag,
`last_cleanup` the wall-clock time of the last notified-names cleanup. -/
structure MonState where
  active_uploads : List (String × Option String)
  notified_files : Finset String
  initial_scan : Bool
  last_cleanup : Nat
  deriving DecidableEq

/-- `CLEANUP_INTERVAL = 3600` (line 91). -/
def CLEANUP_INTERVAL : Nat := 3600

/-- The state at the top of `main` (lines 87-90), with `last_cleanup`
initialised to the start-up wall-clock time `t0`. -/
def initialState (t0 : Nat) : MonState :=
  { active_uploads := [], notified_files := ∅, initial_scan := true,
    last_cleanup := t0 }

/-- Python's default `str.strip()` whitespace characters. -/
def pyIsSpace (c : Char) : Bool :=
  c == ' ' || c == '\t' || c == '\n' || c == '\r' || c == '\x0b' || c == '\x0c'

/-- Python `s.strip()`: drop whitespace from both ends. -/
def pyStrip (s : String) : String :=
  ⟨((s.data.dropWhile pyIsSpace).reverse.dropWhile pyIsSpace).reverse⟩

/-- Python `s.lower()`, restricted to ASCII (the only case that matters for
the `'file list'` substring test). -/
def asciiLower (c : Char) : Char :=
  if 'A' ≤ c ∧ c ≤ 'Z' then Char.ofNat (c.toNat + 32) else c

/-- Python `s.lower()` on a string. -/
def pyLower (s : String) : String := ⟨s.data.map asciiLower⟩

/-- Python string truthiness for an optional string: `None` and `''` are
falsy.  Used for `if not transfer_id` (line 120). -/
def pyTruthy : Option String → Bool
  | none => false
  | some s => !s.data.isEmpty

/-- Whether the character list `sub` occurs as a prefix of `l`. -/
def listIsPrefix : List Char → List Char → Bool
  | [], _ => true
  | _ :: _, [] => false
  | a :: as, b :: bs => a == b && listIsPrefix as bs

/-- Whether the character list `sub` occurs contiguously inside `l`:
Python's `sub in s` on strings. -/
def listHasSub (sub : List Char) : List Char → Bool
  | [] => listIsPrefix sub []
  | b :: bs => listIsPrefix sub (b :: bs) || listHasSub sub bs

/-- Python `sub in s` for strings. -/
def strHasSub (s sub : String) : Bool := listHasSub sub.data s.data

/-- `transfer_name = transfer.get('name', '').strip()` (line 117). -/
def transferName (t : Transfer) : String := pyStrip (t.name.getD "")

/-- `transfer_key = f"{transfer_id}_{transfer_name}"` (line 126); `id` is a
string whenever the entry survives the filter. -/
def mkKey (t : Transfer) : String := t.id.getD "" ++ "_" ++ transferName t

/-- The two `continue` filters of the per-transfer loop, lines 111 and 120:
the entry survives iff `download` is present and `False`, `transfer_id` is
truthy, the stripped name is non-empty, and the lowercased name does not
contain `'file list'`. -/
def passesFilter (t : Transfer) : Bool :=
  !t.download.getD true && pyTruthy t.id && !(transferName t).data.isEmpty &&
    !strHasSub (pyLower (transferName t)) "file list"

/-- Python-dict assignment `d[k] = v`: replace the value if the key is
present, else append the new pair. -/
def updateAssoc (m : List (String × Option String)) (k : String)
    (v : Option String) : List (String × Option String) :=
  if (m.lookup k).isSome then
    m.map fun p => if p.1 = k then (p.1, v) else p
  else m ++ [(k, v)]

/-- The accumulator of one pass over the fetched list: the evolving state
together with the cycle-local `current_transfer_keys` and `current_files`
sets (lines 96-97) and the names for which `is_new_transfer` held, in
processing order (the transfers line 149 reports as newly detected). -/
structure CycleAcc where
  st : MonState
  current_transfer_keys : Finset String
  current_files : Finset String
  newly_detected : List String
  deriving DecidableEq

/-- The loop body for one transfer (lines 106-181).  A filtered-out entry
changes nothing.  Otherwise the key and name are recorded, then: during the
initial scan a `finished` entry is absorbed (status recorded, name added to
`notified_files`, no notification, line 133-138); otherwise the novelty test
(line 143) runs, the status is recorded (line 146), and a new name is
notified — added to `notified_files` exactly when the delivery oracle says
the send succeeded (lines 177-181). -/
def processTransfer (deliver : Transfer → Bool) (acc : CycleAcc)
    (t : Transfer) : CycleAcc :=
  if passesFilter t then
    let name := transferName t
    let key := mkKey t
    let acc1 := { acc with
      current_transfer_keys := insert key acc.current_transfer_keys,
      current_files := insert name acc.current_files }
    if acc1.st.initial_scan && (t.status == some "finished") then
      { acc1 with st := { acc1.st with
          active_uploads := updateAssoc acc1.st.active_uploads key t.status,
          notified_files := insert name acc1.st.notified_files } }
    else
      let st2 := { acc1.st with
        active_uploads := updateAssoc acc1.st.active_uploads key t.status }
      if name ∈ acc1.st.notified_files then
        { acc1 with st := st2 }
      else
        let acc2 := { acc1 with
          st := st2,
          newly_detected := acc1.newly_detected ++ [name] }
        if deliver t then
          { acc2 with st := { st2 with
              notified_files := insert name st2.notified_files } }
        else acc2
  else acc

/-- The accumulator at the top of a cycle: fresh empty `current_*` sets. -/
def initAcc (st : MonState) : CycleAcc :=
  { st := st, current_transfer_keys := ∅, current_files := ∅,
    newly_detected := [] }

/-- The whole `for transfer in transfers` pass of one cycle. -/
def foldCycle (deliver : Transfer → Bool) (st : MonState)
    (transfers : List Transfer) : CycleAcc :=
  transfers.foldl (processTransfer deliver) (initAcc st)

/-- Lines 189-193: keys no longer current whose recorded status is not
`'finished'` get status `'finished'`. -/
def markFinished (tbl : List (String × Option String)) (keys : Finset String) :
    List (String × Option String) :=
  tbl.map fun p =>
    if p.1 ∉ keys ∧ p.2 ≠ some "finished" then (p.1, some "finished") else p

/-- The keys for which line 193 logs `"... completada o cancelada"`: stale
keys whose recorded status was not already `'finished'`. -/
def completedLogKeys (tbl : List (String × Option String))
    (keys : Finset String) : List String :=
  tbl.filterMap fun p =>
    if p.1 ∉ keys ∧ p.2 ≠ some "finished" then some p.1 else none

/-- Line 204: keep only the entries whose key is in `current_transfer_keys`. -/
def pruneTable (tbl : List (String × Option String)) (keys : Finset String) :
    List (String × Option String) :=
  tbl.filter fun p => decide (p.1 ∈ keys)

/-- What one cycle produces: the next state, the names classified newly
detected, and the keys for which a completed-or-cancelled event was logged. -/
structure CycleResult where
  st : MonState
  newly_detected : List String
  completed_logged : List String
  deriving DecidableEq

/-- One iteration of the `while True` loop (lines 93-206) on an
already-fetched list.  An empty list short-circuits (lines 99-104): only
`initial_scan` is cleared.  Otherwise the per-transfer pass runs, then
`initial_scan` is cleared (lines 184-186), stale non-finished entries are
marked and logged (189-193), the notified-names cleanup runs when
`now - last_cleanup > CLEANUP_INTERVAL` (196-201, `Nat` subtraction agrees
with the Python comparison since both refuse when `now ≤ last_cleanup`),
and stale keys are pruned (204). -/
def runCycle (deliver : Transfer → Bool) (now : Nat) (st : MonState)
    (transfers : List Transfer) : CycleResult :=
  if transfers.isEmpty then
    { st := { st with initial_scan := false }, newly_detected := [],
      completed_logged := [] }
  else
    let acc := foldCycle deliver st transfers
    let st1 := { acc.st with initial_scan := false }
    let logged := completedLogKeys st1.active_uploads acc.current_transfer_keys
    let marked := markFinished st1.active_uploads acc.current_transfer_keys
    let notified2 :=
      if CLEANUP_INTERVAL < now - st1.last_cleanup then
        st1.notified_files ∩ acc.current_files
      else st1.notified_files
    let cleanup2 :=
      if CLEANUP_INTERVAL < now - st1.last_cleanup then now
      else st1.last_cleanup
    { st := { st1 with
        active_uploads := pruneTable marked acc.current_transfer_keys,
        notified_files := notified2,
        last_cleanup := cleanup2 },
      newly_detected := acc.newly_detected,
      completed_logged := logged }

/-- The TransferKeys contributed by the filtered entries of a snapshot
(what `current_transfer_keys` holds after the pass). -/
def snapshotKeys (ts : List Transfer) : Finset String :=
  ts.foldl (fun s t => if passesFilter t then insert (mkKey t) s else s) ∅

/-- The display names of the filtered entries of a snapshot (what
`current_files` holds after the pass). -/
def snapshotNames (ts : List Transfer) : Finset String :=
  ts.foldl (fun s t => if passesFilter t then insert (transferName t) s else s) ∅

/-- The input one cycle consumes: the delivery oracle, the wall-clock time,
and the fetched transfer list. -/
structure CycleInput where
  deliver : Transfer → Bool
  now : Nat
  transfers : List Transfer

/-- Run the loop over a sequence of cycle inputs. -/
def runTrace (st : MonState) : List CycleInput → MonState
  | [] => st
  | i :: rest => runTrace (runCycle i.deliver i.now st i.transfers).st rest

/-- The TransferKeys of the most recent non-empty snapshot of the input
sequence, starting from `acc` when every snapshot is empty. -/
def lastKeys (acc : Finset String) : List CycleInput → Finset String
  | [] => acc
  | i :: rest =>
      lastKeys (if i.transfers.isEmpty then acc else snapshotKeys i.transfers)
        rest

/-! ### Association-list (Python dict) lemmas -/

theorem lookup_cons (k a : String) (b : Option String)
    (tl : List (String × Option String)) :
    ((a, b) :: tl).lookup k = if k = a then some b else tl.lookup k := by
  by_cases h : k = a
  · simp [List.lookup, h]
  · simp [List.lookup, h, show (k == a) = false by simpa using h]

theorem lookup_map_update_self (k : String) (v : Option String) :
    ∀ m : List (String × Option String), (m.lookup k).isSome = true →
      ((m.map fun p => if p.1 = k then (p.1, v) else p).lookup k) = some v := by
  intro m
  induction m with
  | nil => intro h; simp [List.lookup] at h
  | cons hd tl ih =>
      obtain ⟨a, b⟩ := hd
      intro h
      by_cases hk : a = k
      · subst hk
        simp [lookup_cons]
      · rw [lookup_cons, if_neg (fun hh => hk hh.symm)] at h
        simp only [List.map_cons, if_neg hk]
        rw [lookup_cons, if_neg (fun hh => hk hh.symm)]
        exact ih h

theorem lookup_append_right_self (k : String) (v : Option String) :
    ∀ m : List (String × Option String), (m.lookup k).isSome = false →
      ((m ++ [(k, v)]).lookup k) = some v := by
  intro m
  induction m with
  | nil => intro _; rw [List.nil_append, lookup_cons, if_pos rfl]
  | cons hd tl ih =>
      obtain ⟨a, b⟩ := hd
      intro h
      rw [lookup_cons] at h
      by_cases hk : k = a
      · rw [if_pos hk] at h; simp at h
      · rw [if_neg hk] at h
        rw [List.cons_append, lookup_cons, if_neg hk]
        exact ih h

theorem lookup_updateAssoc_self (m : List (String × Option String))
    (k : String) (v : Option String) : (updateAssoc m k v).lookup k = some v := by
  unfold updateAssoc
  by_cases h : (m.lookup k).isSome
  · rw [if_pos h]; exact lookup_map_update_self k v m h
  · rw [if_neg h]
    refine lookup_append_right_self k v m ?_
    simp only [Bool.not_eq_true] at h
    exact h

theorem lookup_updateAssoc_ne (m : List (String × Option String))
    (k k' : String) (v : Option String) (h : k' ≠ k) :
    (updateAssoc m k v).lookup k' = m.lookup k' := by
  unfold updateAssoc
  split
  case isTrue hc =>
    clear hc
    induction m with
    | nil => simp
    | cons hd tl ih =>
        obtain ⟨a, b⟩ := hd
        by_cases hk : a = k
        · subst hk
          simp only [List.map_cons, if_pos rfl, if_true]
          rw [lookup_cons, lookup_cons, if_neg h, if_neg h]
          exact ih
        · simp only [List.map_cons, if_neg hk]
          rw [lookup_cons, lookup_cons]
          by_cases hk' : k' = a
          · rw [if_pos hk', if_pos hk']
          · rw [if_neg hk', if_neg hk']; exact ih
  case isFalse hc =>
    clear hc
    induction m with
    | nil => rw [List.nil_append, lookup_cons, if_neg h]
    | cons hd tl ih =>
        obtain ⟨a, b⟩ := hd
        rw [List.cons_append, lookup_cons, lookup_cons]
        by_cases hk' : k' = a
        · rw [if_pos hk', if_pos hk']
        · rw [if_neg hk', if_neg hk']; exact ih

theorem lookup_mem {m : List (String × Option String)} {k : String}
    {v : Option String} (h : m.lookup k = some v) : (k, v) ∈ m := by
  induction m with
  | nil => simp [List.lookup] at h
  | cons hd tl ih =>
      obtain ⟨a, b⟩ := hd
      rw [lookup_cons] at h
      by_cases hk : k = a
      · rw [if_pos hk] at h
        simp only [Option.some.injEq] at h
        subst hk; subst h
        exact List.mem_cons_self _ _
      · rw [if_neg hk] at h
        exact List.mem_cons_of_mem _ (ih h)

theorem lookup_pruneTable_none (tbl : List (String × Option String))
    (keys : Finset String) (k : String) (h : k ∉ keys) :
    (pruneTable tbl keys).lookup k = none := by
  unfold pruneTable
  induction tbl with
  | nil => simp [List.lookup]
  | cons hd tl ih =>
      by_cases hm : hd.1 ∈ keys
      · obtain ⟨a, b⟩ := hd
        have hf : List.filter (fun p => decide (p.1 ∈ keys)) ((a, b) :: tl)
            = (a, b) :: List.filter (fun p => decide (p.1 ∈ keys)) tl := by
          simp [List.filter_cons, hm]
        rw [hf, lookup_cons, if_neg (fun hh : k = a => h (hh ▸ hm))]
        exact ih
      · have hf : List.filter (fun p => decide (p.1 ∈ keys)) (hd :: tl)
            = List.filter (fun p => decide (p.1 ∈ keys)) tl := by
          simp [List.filter_cons, hm]
        rw [hf]
        exact ih

theorem mem_completedLogKeys {tbl : List (String × Option String)}
    {keys : Finset String} {k : String} {v : Option String}
    (hmem : (k, v) ∈ tbl) (hk : k ∉ keys) (hv : v ≠ some "finished") :
    k ∈ completedLogKeys tbl keys := by
  unfold completedLogKeys
  rw [List.mem_filterMap]
  exact ⟨(k, v), hmem, by simp [hk, hv]⟩

theorem mem_pruneTable_keys {tbl : List (String × Option String)}
    {keys : Finset String} {k : String}
    (h : k ∈ (pruneTable tbl keys).map Prod.fst) : k ∈ keys := by
  unfold pruneTable at h
  rw [List.mem_map] at h
  obtain ⟨p, hp, rfl⟩ := h
  rw [List.mem_filter] at hp
  simpa using hp.2

/-! ### Single-step (per-transfer) lemmas -/

theorem processTransfer_not_filtered (d : Transfer → Bool) (acc : CycleAcc)
    (t : Transfer) (h : passesFilter t = false) :
    processTransfer d acc t = acc := by
  simp [processTransfer, h]

theorem processTransfer_keys (d : Transfer → Bool) (acc : CycleAcc)
    (t : Transfer) (h : passesFilter t = true) :
    (processTransfer d acc t).current_transfer_keys
      = insert (mkKey t) acc.current_transfer_keys := by
  simp only [processTransfer, h, if_true]
  split
  · rfl
  · split
    · rfl
    · split <;> rfl

theorem processTransfer_files (d : Transfer → Bool) (acc : CycleAcc)
    (t : Transfer) (h : passesFilter t = true) :
    (processTransfer d acc t).current_files
      = insert (transferName t) acc.current_files := by
  simp only [processTransfer, h, if_true]
  split
  · rfl
  · split
    · rfl
    · split <;> rfl

theorem processTransfer_active (d : Transfer → Bool) (acc : CycleAcc)
    (t : Transfer) (h : passesFilter t = true) :
    (processTransfer d acc t).st.active_uploads
      = updateAssoc acc.st.active_uploads (mkKey t) t.status := by
  simp only [processTransfer, h, if_true]
  split
  · rfl
  · split
    · rfl
    · split <;> rfl

theorem processTransfer_initial_scan (d : Transfer → Bool) (acc : CycleAcc)
    (t : Transfer) :
    (processTransfer d acc t).st.initial_scan = acc.st.initial_scan := by
  by_cases h : passesFilter t
  · simp only [processTransfer, h, if_true]
    split
    · rfl
    · split
      · rfl
      · split <;> rfl
  · rw [processTransfer_not_filtered d acc t (by simpa using h)]

theorem processTransfer_last_cleanup (d : Transfer → Bool) (acc : CycleAcc)
    (t : Transfer) :
    (processTransfer d acc t).st.last_cleanup = acc.st.last_cleanup := by
  by_cases h : passesFilter t
  · simp only [processTransfer, h, if_true]
    split
    · rfl
    · split
      · rfl
      · split <;> rfl
  · rw [processTransfer_not_filtered d acc t (by simpa using h)]

theorem processTransfer_notified_mono (d : Transfer → Bool) (acc : CycleAcc)
    (t : Transfer) :
    acc.st.notified_files ⊆ (processTransfer d acc t).st.notified_files := by
  by_cases h : passesFilter t
  · simp only [processTransfer, h, if_true]
    split
    · exact Finset.subset_insert _ _
    · split
      · exact Finset.Subset.refl _
      · split
        · exact Finset.subset_insert _ _
        · exact Finset.Subset.refl _
  · rw [processTransfer_not_filtered d acc t (by simpa using h)]

theorem processTransfer_initial_finished (d : Transfer → Bool) (acc : CycleAcc)
    (t : Transfer) (h : passesFilter t = true)
    (hi : acc.st.initial_scan = true) (hs : t.status = some "finished") :
    processTransfer d acc t = { acc with
      st := { acc.st with
        active_uploads := updateAssoc acc.st.active_uploads (mkKey t) t.status,
        notified_files := insert (transferName t) acc.st.notified_files },
      current_transfer_keys := insert (mkKey t) acc.current_transfer_keys,
      current_files := insert (transferName t) acc.current_files } := by
  simp only [processTransfer, h, if_true]
  rw [if_pos]
  simp [hi, hs]

theorem processTransfer_known (d : Transfer → Bool) (acc : CycleAcc)
    (t : Transfer) (h : passesFilter t = true)
    (hni : ¬(acc.st.initial_scan = true ∧ t.status = some "finished"))
    (hmem : transferName t ∈ acc.st.notified_files) :
    processTransfer d acc t = { acc with
      st := { acc.st with
        active_uploads := updateAssoc acc.st.active_uploads (mkKey t) t.status },
      current_transfer_keys := insert (mkKey t) acc.current_transfer_keys,
      current_files := insert (transferName t) acc.current_files } := by
  simp only [processTransfer, h, if_true]
  rw [if_neg (by simpa using hni), if_pos hmem]

theorem processTransfer_new_success (d : Transfer → Bool) (acc : CycleAcc)
    (t : Transfer) (h : passesFilter t = true)
    (hni : ¬(acc.st.initial_scan = true ∧ t.status = some "finished"))
    (hmem : transferName t ∉ acc.st.notified_files) (hd : d t = true) :
    processTransfer d acc t = { acc with
      st := { acc.st with
        active_uploads := updateAssoc acc.st.active_uploads (mkKey t) t.status,
        notified_files := insert (transferName t) acc.st.notified_files },
      current_transfer_keys := insert (mkKey t) acc.current_transfer_keys,
      current_files := insert (transferName t) acc.current_files,
      newly_detected := acc.newly_detected ++ [transferName t] } := by
  simp only [processTransfer, h, if_true]
  rw [if_neg (by simpa using hni), if_neg hmem, if_pos hd]

theorem processTransfer_new_failure (d : Transfer → Bool) (acc : CycleAcc)
    (t : Transfer) (h : passesFilter t = true)
    (hni : ¬(acc.st.initial_scan = true ∧ t.status = some "finished"))
    (hmem : transferName t ∉ acc.st.notified_files) (hd : d t = false) :
    processTransfer d acc t = { acc with
      st := { acc.st with
        active_uploads := updateAssoc acc.st.active_uploads (mkKey t) t.status },
      current_transfer_keys := insert (mkKey t) acc.current_transfer_keys,
      current_files := insert (transferName t) acc.current_files,
      newly_detected := acc.newly_detected ++ [transferName t] } := by
  simp only [processTransfer, h, if_true]
  rw [if_neg (by simpa using hni), if_neg hmem, if_neg (by simp [hd])]

theorem processTransfer_delivered_mem (d : Transfer → Bool) (acc : CycleAcc)
    (t : Transfer) (h : passesFilter t = true) (hd : d t = true) :
    transferName t ∈ (processTransfer d acc t).st.notified_files := by
  by_cases hi : acc.st.initial_scan = true ∧ t.status = some "finished"
  · rw [processTransfer_initial_finished d acc t h hi.1 hi.2]
    exact Finset.mem_insert_self _ _
  · by_cases hmem : transferName t ∈ acc.st.notified_files
    · rw [processTransfer_known d acc t h hi hmem]
      exact hmem
    · rw [processTransfer_new_success d acc t h hi hmem hd]
      exact Finset.mem_insert_self _ _

/-! ### Whole-pass (fold) lemmas -/

theorem fold_initial_scan (d : Transfer → Bool) :
    ∀ (ts : List Transfer) (acc : CycleAcc),
      (ts.foldl (processTransfer d) acc).st.initial_scan
        = acc.st.initial_scan := by
  intro ts
  induction ts with
  | nil => intro acc; rfl
  | cons t ts ih =>
      intro acc
      rw [List.foldl_cons, ih, processTransfer_initial_scan]

theorem fold_last_cleanup (d : Transfer → Bool) :
    ∀ (ts : List Transfer) (acc : CycleAcc),
      (ts.foldl (processTransfer d) acc).st.last_cleanup
        = acc.st.last_cleanup := by
  intro ts
  induction ts with
  | nil => intro acc; rfl
  | cons t ts ih =>
      intro acc
      rw [List.foldl_cons, ih, processTransfer_last_cleanup]

theorem fold_keys (d : Transfer → Bool) :
    ∀ (ts : List Transfer) (acc : CycleAcc),
      (ts.foldl (processTransfer d) acc).current_transfer_keys
        = ts.foldl (fun s t => if passesFilter t then insert (mkKey t) s else s)
            acc.current_transfer_keys := by
  intro ts
  induction ts with
  | nil => intro acc; rfl
  | cons t ts ih =>
      intro acc
      rw [List.foldl_cons, List.foldl_cons, ih]
      by_cases h : passesFilter t
      · rw [processTransfer_keys d acc t h, if_pos h]
      · rw [processTransfer_not_filtered d acc t (by simpa using h),
          if_neg h]

theorem fold_files (d : Transfer → Bool) :
    ∀ (ts : List Transfer) (acc : CycleAcc),
      (ts.foldl (processTransfer d) acc).current_files
        = ts.foldl
            (fun s t => if passesFilter t then insert (transferName t) s else s)
            acc.current_files := by
  intro ts
  induction ts with
  | nil => intro acc; rfl
  | cons t ts ih =>
      intro acc
      rw [List.foldl_cons, List.foldl_cons, ih]
      by_cases h : passesFilter t
      · rw [processTransfer_files d acc t h, if_pos h]
      · rw [processTransfer_not_filtered d acc t (by simpa using h),
          if_neg h]

theorem fold_notified_mono (d : Transfer → Bool) :
    ∀ (ts : List Transfer) (acc : CycleAcc),
      acc.st.notified_files ⊆ (ts.foldl (processTransfer d) acc).st.notified_files := by
  intro ts
  induction ts with
  | nil => intro acc; exact Finset.Subset.refl _
  | cons t ts ih =>
      intro acc
      rw [List.foldl_cons]
      exact (processTransfer_notified_mono d acc t).trans (ih _)

theorem fold_delivered_mem (d : Transfer → Bool) :
    ∀ (ts : List Transfer) (acc : CycleAcc) (t : Transfer), t ∈ ts →
      passesFilter t = true → d t = true →
      transferName t ∈ (ts.foldl (processTransfer d) acc).st.notified_files := by
  intro ts
  induction ts with
  | nil => intro acc t ht; simp at ht
  | cons t' ts ih =>
      intro acc t ht hf hd
      rw [List.foldl_cons]
      rcases List.mem_cons.mp ht with h | h
      · subst h
        exact fold_notified_mono d ts _ (processTransfer_delivered_mem d acc t hf hd)
      · exact ih _ t h hf hd

theorem fold_no_new (d : Transfer → Bool) :
    ∀ (ts : List Transfer) (acc : CycleAcc),
      (∀ t ∈ ts, passesFilter t = true →
        transferName t ∈ acc.st.notified_files) →
      (ts.foldl (processTransfer d) acc).newly_detected = acc.newly_detected := by
  intro ts
  induction ts with
  | nil => intro acc _; rfl
  | cons t ts ih =>
      intro acc hall
      rw [List.foldl_cons]
      have hstep : (processTransfer d acc t).newly_detected = acc.newly_detected := by
        by_cases h : passesFilter t
        · have hmem := hall t (List.mem_cons_self t ts) h
          by_cases hi : acc.st.initial_scan = true ∧ t.status = some "finished"
          · rw [processTransfer_initial_finished d acc t h hi.1 hi.2]
          · rw [processTransfer_known d acc t h hi hmem]
        · rw [processTransfer_not_filtered d acc t (by simpa using h)]
      rw [ih _ fun t' ht' hf' =>
        processTransfer_notified_mono d acc t
          (hall t' (List.mem_cons_of_mem t ht') hf'), hstep]

theorem fold_lookup_preserved (d : Transfer → Bool) (k : String) :
    ∀ (ts : List Transfer) (acc : CycleAcc),
      (∀ t ∈ ts, passesFilter t = true → mkKey t ≠ k) →
      (ts.foldl (processTransfer d) acc).st.active_uploads.lookup k
        = acc.st.active_uploads.lookup k := by
  intro ts
  induction ts with
  | nil => intro acc _; rfl
  | cons t ts ih =>
      intro acc hall
      rw [List.foldl_cons,
        ih _ fun t' ht' hf' => hall t' (List.mem_cons_of_mem t ht') hf']
      by_cases h : passesFilter t
      · rw [processTransfer_active d acc t h]
        exact lookup_updateAssoc_ne _ _ _ _
          fun hh => hall t (List.mem_cons_self t ts) h hh.symm
      · rw [processTransfer_not_filtered d acc t (by simpa using h)]

/-! ### Snapshot key/name set lemmas -/

theorem foldIns_subset (f : Transfer → String) :
    ∀ (ts : List Transfer) (s : Finset String),
      s ⊆ ts.foldl (fun s t => if passesFilter t then insert (f t) s else s) s := by
  intro ts
  induction ts with
  | nil => intro s; exact Finset.Subset.refl _
  | cons t ts ih =>
      intro s
      rw [List.foldl_cons]
      refine Finset.Subset.trans ?_ (ih _)
      by_cases h : passesFilter t
      · rw [if_pos h]; exact Finset.subset_insert _ _
      · rw [if_neg h]

theorem mem_foldIns (f : Transfer → String) :
    ∀ (ts : List Transfer) (s : Finset String) (t : Transfer), t ∈ ts →
      passesFilter t = true →
      f t ∈ ts.foldl (fun s t => if passesFilter t then insert (f t) s else s) s := by
  intro ts
  induction ts with
  | nil => intro s t ht; simp at ht
  | cons t' ts ih =>
      intro s t ht hf
      rw [List.foldl_cons]
      rcases List.mem_cons.mp ht with h | h
      · subst h
        refine foldIns_subset f ts _ ?_
        rw [if_pos hf]
        exact Finset.mem_insert_self _ _
      · exact ih _ t h hf

theorem foldCycle_keys (d : Transfer → Bool) (st : MonState)
    (ts : List Transfer) :
    (foldCycle d st ts).current_transfer_keys = snapshotKeys ts := by
  unfold foldCycle snapshotKeys
  rw [fold_keys]
  rfl

theorem foldCycle_files (d : Transfer → Bool) (st : MonState)
    (ts : List Transfer) :
    (foldCycle d st ts).current_files = snapshotNames ts := by
  unfold foldCycle snapshotNames
  rw [fold_files]
  rfl

theorem mem_snapshotKeys {ts : List Transfer} {t : Transfer} (ht : t ∈ ts)
    (hf : passesFilter t = true) : mkKey t ∈ snapshotKeys ts :=
  mem_foldIns mkKey ts ∅ t ht hf

theorem mem_snapshotNames {ts : List Transfer} {t : Transfer} (ht : t ∈ ts)
    (hf : passesFilter t = true) : transferName t ∈ snapshotNames ts :=
  mem_foldIns transferName ts ∅ t ht hf

/-! ### Cycle-level lemmas -/

theorem isEmpty_false_of_ne_nil {α : Type} {l : List α} (h : l ≠ []) :
    l.isEmpty = false := by
  cases l with
  | nil => exact absurd rfl h
  | cons a l => rfl

theorem runCycle_empty (d : Transfer → Bool) (now : Nat) (st : MonState) :
    runCycle d now st []
      = { st := { st with initial_scan := false }, newly_detected := [],
          completed_logged := [] } := rfl

theorem runCycle_nonempty (d : Transfer → Bool) (now : Nat) (st : MonState)
    (ts : List Transfer) (h : ts.isEmpty = false) :
    runCycle d now st ts
      = ⟨⟨pruneTable
            (markFinished (foldCycle d st ts).st.active_uploads
              (snapshotKeys ts))
            (snapshotKeys ts),
          if CLEANUP_INTERVAL < now - st.last_cleanup then
            (foldCycle d st ts).st.notified_files ∩ snapshotNames ts
          else (foldCycle d st ts).st.notified_files,
          false,
          if CLEANUP_INTERVAL < now - st.last_cleanup then now
          else st.last_cleanup⟩,
        (foldCycle d st ts).newly_detected,
        completedLogKeys (foldCycle d st ts).st.active_uploads
          (snapshotKeys ts)⟩ := by
  have hlc : (foldCycle d st ts).st.last_cleanup = st.last_cleanup :=
    fold_last_cleanup d ts (initAcc st)
  simp only [runCycle, h, Bool.false_eq_true, if_false, foldCycle_keys,
    foldCycle_files, hlc]

theorem runCycle_initial_scan (d : Transfer → Bool) (now : Nat)
    (st : MonState) (ts : List Transfer) :
    (runCycle d now st ts).st.initial_scan = false := by
  rcases ts with _ | ⟨t, ts⟩
  · rw [runCycle_empty]
  · rw [runCycle_nonempty d now st (t :: ts) rfl]

/-! ### Concrete transfers used by witnesses and counterexamples -/

/-- An in-progress upload entry. -/
def tUp : Transfer := ⟨some false, some "1", some "movie.mkv", some "running"⟩

/-- A second upload with the same display name but a different id. -/
def tUp2 : Transfer := ⟨some false, some "2", some "movie.mkv", some "running"⟩

/-- A finished upload entry. -/
def tDone : Transfer := ⟨some false, some "7", some "done.iso", some "finished"⟩

/-! ### The claims -/

/-- C9: a cycle whose fetched transfer list is empty sends no notification
and short-circuits: nothing is classified, `active_uploads` is left exactly
as it was (no pruning), `notified_files` and `last_cleanup` are untouched,
and `initial_scan` is still cleared (lines 99-104). -/
theorem empty_snapshot_short_circuit (d : Transfer → Bool) (now : Nat)
    (st : MonState) :
    (runCycle d now st []).newly_detected = []
    ∧ (runCycle d now st []).st.active_uploads = st.active_uploads
    ∧ (runCycle d now st []).st.notified_files = st.notified_files
    ∧ (runCycle d now st []).st.last_cleanup = st.last_cleanup
    ∧ (runCycle d now st []).completed_logged = []
    ∧ (runCycle d now st []).st.initial_scan = false := by
  rw [runCycle_empty]
  exact ⟨rfl, rfl, rfl, rfl, rfl, rfl⟩

/-- C7 counterexample: the claim says `initial_scan` remains true until the
first non-empty snapshot has been fully processed once, but line 102 clears
it on an empty snapshot too: starting from the initial state and fetching an
empty list — zero non-empty snapshots processed — the flag is already
false. -/
theorem initial_scan_cleared_by_empty_first_cycle :
    (runCycle (fun _ => true) 0 (initialState 0) []).st.initial_scan = false :=
  rfl

/-- C7 (amended): `initial_scan` starts true and is false after every cycle,
whether or not that cycle's snapshot was empty (lines 102 and 184-186); since
no cycle ever sets it back to true, it transitions from true to false exactly
once, at the end of the first cycle, and is false in every cycle
thereafter. -/
theorem initial_scan_one_shot (t0 : Nat) (d : Transfer → Bool) (now : Nat)
    (st : MonState) (ts : List Transfer) :
    (initialState t0).initial_scan = true
    ∧ (runCycle d now st ts).st.initial_scan = false :=
  ⟨rfl, runCycle_initial_scan d now st ts⟩

/-- C5: the filter discards exactly the entries whose download flag is true
or absent, whose identifier is untruthy (absent or empty), whose stripped
display name is empty, or whose lowercased display name contains
`"file list"` (lines 111 and 120); a discarded entry leaves the cycle
accumulator — state, `current_transfer_keys`, `current_files` and the
newly-detected list — completely unchanged, so it is never classified,
never keyed, never recorded and never notified. -/
theorem filter_discards (d : Transfer → Bool) (acc : CycleAcc) (t : Transfer) :
    (passesFilter t = false ↔
      (t.download.getD true = true ∨ pyTruthy t.id = false
        ∨ transferName t = ""
        ∨ strHasSub (pyLower (transferName t)) "file list" = true))
    ∧ (passesFilter t = false → processTransfer d acc t = acc) := by
  constructor
  · unfold passesFilter
    have hemp : (transferName t).data.isEmpty = true ↔ transferName t = "" := by
      cases hn : transferName t with
      | mk l =>
          cases l with
          | nil => simp
          | cons c l => simp [List.isEmpty, String.ext_iff]
    rw [Bool.and_eq_false_iff, Bool.and_eq_false_iff, Bool.and_eq_false_iff,
      Bool.not_eq_false', Bool.not_eq_false', Bool.not_eq_false', hemp]
    constructor
    · rintro (((h | h) | h) | h)
      · exact Or.inl h
      · exact Or.inr (Or.inl h)
      · exact Or.inr (Or.inr (Or.inl h))
      · exact Or.inr (Or.inr (Or.inr h))
    · rintro (h | h | h | h)
      · exact Or.inl (Or.inl (Or.inl h))
      · exact Or.inl (Or.inl (Or.inr h))
      · exact Or.inl (Or.inr h)
      · exact Or.inr h
  · exact fun h => processTransfer_not_filtered d acc t h

/-- C2: during the initial scan (flag true), a filtered entry whose status is
`finished` has its key and status recorded in `active_uploads` and its name
added to `notified_files` with no notification attempt (lines 132-138), while
an entry with any other status falls through to the normal novelty test and
is eligible for notification (lines 139-148); consequently a first-cycle
snapshot holding one finished and one running entry classifies exactly the
running entry as newly detected. -/
theorem initial_scan_policy
    (d : Transfer → Bool) (acc : CycleAcc) (t : Transfer)
    (now : Nat) (st : MonState) (tf tr : Transfer)
    (hfil : passesFilter t = true) (hinit : acc.st.initial_scan = true)
    (hstinit : st.initial_scan = true)
    (hff : passesFilter tf = true) (hrf : passesFilter tr = true)
    (hfs : tf.status = some "finished") (hrs : tr.status ≠ some "finished")
    (hrnew : transferName tr ∉ st.notified_files)
    (hne : transferName tr ≠ transferName tf) :
    (t.status = some "finished" →
      (processTransfer d acc t).st.notified_files
          = insert (transferName t) acc.st.notified_files
      ∧ (processTransfer d acc t).st.active_uploads.lookup (mkKey t)
          = some t.status
      ∧ (processTransfer d acc t).newly_detected = acc.newly_detected)
    ∧ (t.status ≠ some "finished" → transferName t ∉ acc.st.notified_files →
      (processTransfer d acc t).newly_detected
          = acc.newly_detected ++ [transferName t])
    ∧ (runCycle d now st [tf, tr]).newly_detected = [transferName tr] := by
  refine ⟨?_, ?_, ?_⟩
  · intro hs
    rw [processTransfer_initial_finished d acc t hfil hinit hs]
    exact ⟨rfl, lookup_updateAssoc_self _ _ _, rfl⟩
  · intro hs hmem
    by_cases hd : d t = true
    · rw [processTransfer_new_success d acc t hfil (fun hc => hs hc.2) hmem hd]
    · rw [processTransfer_new_failure d acc t hfil (fun hc => hs hc.2) hmem
        (by simpa using hd)]
  · rw [runCycle_nonempty d now st [tf, tr] rfl]
    show (foldCycle d st [tf, tr]).newly_detected = [transferName tr]
    have h1 := processTransfer_initial_finished d (initAcc st) tf hff hstinit hfs
    have hA : (foldCycle d st [tf, tr]).newly_detected
        = (processTransfer d (processTransfer d (initAcc st) tf) tr).newly_detected := rfl
    rw [hA, h1]
    have hmem2 : transferName tr ∉ insert (transferName tf) st.notified_files := by
      rw [Finset.mem_insert]
      rintro (hc | hc)
      exacts [hne hc, hrnew hc]
    by_cases hd : d tr = true
    · rw [processTransfer_new_success d _ tr hrf (fun hc => hrs hc.2) hmem2 hd]
      rfl
    · rw [processTransfer_new_failure d _ tr hrf (fun hc => hrs hc.2) hmem2
        (by simpa using hd)]
      rfl

/-- C2 witness: a first cycle over one finished and one running upload
classifies exactly the running one. -/
theorem initial_scan_policy_witness :
    (runCycle (fun _ => true) 5 (initialState 5) [tDone, tUp]).newly_detected
      = [transferName tUp] :=
  (initial_scan_policy (fun _ => true) (initAcc (initialState 0)) tDone
    5 (initialState 5) tDone tUp (by decide) rfl rfl (by decide) (by decide)
    rfl (by decide) (by decide) (by decide)).2.2

/-- C1: a transfer that passes the novelty test has its display name added to
`notified_files` if and only if `send_telegram_message` reports success
(lines 177-181); the entry is classified newly detected either way, and when
delivery fails the name stays outside `notified_files` for the whole cycle,
so the same single-transfer snapshot is classified newly detected again on
the next cycle. -/
theorem notification_commit_iff_delivery
    (d : Transfer → Bool) (acc : CycleAcc) (t : Transfer) (st : MonState)
    (now now2 : Nat)
    (hf : passesFilter t = true)
    (hacc : ¬(acc.st.initial_scan = true ∧ t.status = some "finished"))
    (haccnew : transferName t ∉ acc.st.notified_files)
    (hst : ¬(st.initial_scan = true ∧ t.status = some "finished"))
    (hstnew : transferName t ∉ st.notified_files) :
    ((transferName t ∈ (processTransfer d acc t).st.notified_files)
        ↔ d t = true)
    ∧ (processTransfer d acc t).newly_detected
        = acc.newly_detected ++ [transferName t]
    ∧ (d t = false →
        (runCycle d now st [t]).newly_detected = [transferName t]
        ∧ transferName t ∉ (runCycle d now st [t]).st.notified_files
        ∧ (runCycle d now2 (runCycle d now st [t]).st [t]).newly_detected
            = [transferName t]) := by
  refine ⟨?_, ?_, ?_⟩
  · by_cases hd : d t = true
    · rw [processTransfer_new_success d acc t hf hacc haccnew hd]
      simp [hd]
    · rw [processTransfer_new_failure d acc t hf hacc haccnew
        (by simpa using hd)]
      simp [haccnew, hd]
  · by_cases hd : d t = true
    · rw [processTransfer_new_success d acc t hf hacc haccnew hd]
    · rw [processTransfer_new_failure d acc t hf hacc haccnew
        (by simpa using hd)]
  · intro hd0
    have hchar := processTransfer_new_failure d (initAcc st) t hf hst hstnew hd0
    have hN : (foldCycle d st [t]).newly_detected = [transferName t] := by
      show (processTransfer d (initAcc st) t).newly_detected = [transferName t]
      rw [hchar]
      rfl
    have hNot : (foldCycle d st [t]).st.notified_files = st.notified_files := by
      show (processTransfer d (initAcc st) t).st.notified_files
        = st.notified_files
      rw [hchar]
      rfl
    have hmemr : transferName t ∉ (runCycle d now st [t]).st.notified_files := by
      rw [runCycle_nonempty d now st [t] rfl]
      show transferName t ∉
        (if CLEANUP_INTERVAL < now - st.last_cleanup then
          (foldCycle d st [t]).st.notified_files ∩ snapshotNames [t]
        else (foldCycle d st [t]).st.notified_files)
      split
      · rw [hNot]
        exact fun hc => hstnew (Finset.mem_inter.mp hc).1
      · rw [hNot]
        exact hstnew
    refine ⟨?_, hmemr, ?_⟩
    · rw [runCycle_nonempty d now st [t] rfl]
      exact hN
    · have hni2 :
          ¬((runCycle d now st [t]).st.initial_scan = true
            ∧ t.status = some "finished") := by
        rw [runCycle_initial_scan]
        rintro ⟨hc, -⟩
        exact Bool.false_ne_true hc
      have hchar2 := processTransfer_new_failure d
        (initAcc (runCycle d now st [t]).st) t hf hni2 hmemr hd0
      rw [runCycle_nonempty d now2 (runCycle d now st [t]).st [t] rfl]
      show (processTransfer d (initAcc (runCycle d now st [t]).st) t).newly_detected
        = [transferName t]
      rw [hchar2]
      rfl

/-- C1 witness: a failed delivery leaves the single running upload newly
detected again on the next cycle. -/
theorem notification_commit_iff_delivery_witness :
    (runCycle (fun _ => false) 1
      (runCycle (fun _ => false) 0 (initialState 0) [tUp]).st
      [tUp]).newly_detected = [transferName tUp] :=
  ((notification_commit_iff_delivery (fun _ => false)
    (initAcc (initialState 0)) tUp (initialState 0) 0 1 (by decide)
    (by decide) (by decide) (by decide) (by decide)).2.2 rfl).2.2

/-- C10: within one cycle, when two filtered entries with distinct keys share
a display name and delivery for the first succeeds, the name is committed to
`notified_files` immediately (line 179, before the loop reaches the second
entry), so the second entry fails the novelty test: only the first is
classified newly detected. -/
theorem same_name_single_notification
    (d : Transfer → Bool) (st : MonState) (now : Nat) (t1 t2 : Transfer)
    (h1 : passesFilter t1 = true) (h2 : passesFilter t2 = true)
    (hkeys : mkKey t1 ≠ mkKey t2)
    (hname : transferName t2 = transferName t1)
    (hni : ¬(st.initial_scan = true ∧ t1.status = some "finished"))
    (hnew : transferName t1 ∉ st.notified_files)
    (hd : d t1 = true) :
    (runCycle d now st [t1, t2]).newly_detected = [transferName t1]
    ∧ transferName t1
        ∈ (processTransfer d (initAcc st) t1).st.notified_files := by
  have hcommit := processTransfer_delivered_mem d (initAcc st) t1 h1 hd
  refine ⟨?_, hcommit⟩
  rw [runCycle_nonempty d now st [t1, t2] rfl]
  show (processTransfer d (processTransfer d (initAcc st) t1) t2).newly_detected
    = [transferName t1]
  have hchar1 := processTransfer_new_success d (initAcc st) t1 h1 hni hnew hd
  by_cases hi2 : (processTransfer d (initAcc st) t1).st.initial_scan = true
      ∧ t2.status = some "finished"
  · rw [processTransfer_initial_finished d _ t2 h2 hi2.1 hi2.2, hchar1]
    rfl
  · have hmem2 : transferName t2
        ∈ (processTransfer d (initAcc st) t1).st.notified_files := by
      rw [hchar1, hname]
      exact Finset.mem_insert_self _ _
    rw [processTransfer_known d _ t2 h2 hi2 hmem2, hchar1]
    rfl

/-- C10 witness: two same-named uploads with distinct ids in one first-cycle
snapshot yield one newly detected entry. -/
theorem same_name_single_notification_witness :
    (runCycle (fun _ => true) 0 (initialState 0) [tUp, tUp2]).newly_detected
      = [transferName tUp]
    ∧ transferName tUp
        ∈ (processTransfer (fun _ => true) (initAcc (initialState 0))
            tUp).st.notified_files :=
  same_name_single_notification (fun _ => true) (initialState 0) 0 tUp tUp2
    (by decide) (by decide) (by decide) (by decide) (by decide) (by decide)
    rfl

/-- C4: when a non-empty cycle's cleanup triggers
(`now - last_cleanup > CLEANUP_INTERVAL`, lines 196-199), the resulting
`notified_files` is exactly its prior (pre-cleanup, post-pass) value
intersected with the display names of the cycle's filtered snapshot, and
`last_cleanup` is reset to `now`; in every other situation (no trigger, or
an empty snapshot) `notified_files` never shrinks and `last_cleanup` is
unchanged; and the cleanup never removes a name present in the current
filtered snapshot. -/
theorem notified_gc (d : Transfer → Bool) (now : Nat) (st : MonState)
    (ts : List Transfer) :
    (ts ≠ [] → CLEANUP_INTERVAL < now - st.last_cleanup →
      (runCycle d now st ts).st.notified_files
          = (foldCycle d st ts).st.notified_files ∩ snapshotNames ts
        ∧ (runCycle d now st ts).st.last_cleanup = now)
    ∧ ((ts = [] ∨ ¬ CLEANUP_INTERVAL < now - st.last_cleanup) →
      st.notified_files ⊆ (runCycle d now st ts).st.notified_files
        ∧ (runCycle d now st ts).st.last_cleanup = st.last_cleanup)
    ∧ (∀ n ∈ snapshotNames ts, n ∈ (foldCycle d st ts).st.notified_files →
        n ∈ (runCycle d now st ts).st.notified_files) := by
  refine ⟨?_, ?_, ?_⟩
  · intro hne hlt
    rw [runCycle_nonempty d now st ts (isEmpty_false_of_ne_nil hne)]
    constructor
    · show (if CLEANUP_INTERVAL < now - st.last_cleanup then
          (foldCycle d st ts).st.notified_files ∩ snapshotNames ts
        else (foldCycle d st ts).st.notified_files) = _
      rw [if_pos hlt]
    · show (if CLEANUP_INTERVAL < now - st.last_cleanup then now
        else st.last_cleanup) = now
      rw [if_pos hlt]
  · intro h
    rcases h with h | h
    · subst h
      rw [runCycle_empty]
      exact ⟨Finset.Subset.refl _, rfl⟩
    · cases ts with
      | nil =>
          rw [runCycle_empty]
          exact ⟨Finset.Subset.refl _, rfl⟩
      | cons t ts' =>
          rw [runCycle_nonempty d now st (t :: ts') rfl]
          constructor
          · show st.notified_files ⊆
              (if CLEANUP_INTERVAL < now - st.last_cleanup then
                (foldCycle d st (t :: ts')).st.notified_files
                  ∩ snapshotNames (t :: ts')
              else (foldCycle d st (t :: ts')).st.notified_files)
            rw [if_neg h]
            exact fold_notified_mono d (t :: ts') (initAcc st)
          · show (if CLEANUP_INTERVAL < now - st.last_cleanup then now
              else st.last_cleanup) = st.last_cleanup
            rw [if_neg h]
  · intro n hn hfold
    cases ts with
    | nil => exact absurd hn (Finset.not_mem_empty n)
    | cons t ts' =>
        rw [runCycle_nonempty d now st (t :: ts') rfl]
        show n ∈ (if CLEANUP_INTERVAL < now - st.last_cleanup then
            (foldCycle d st (t :: ts')).st.notified_files
              ∩ snapshotNames (t :: ts')
          else (foldCycle d st (t :: ts')).st.notified_files)
        split
        · exact Finset.mem_inter.mpr ⟨hfold, hn⟩
        · exact hfold

/-- C6 counterexample: the claim quantifies over every next cycle, but an
empty snapshot in cycle N+1 short-circuits before pruning (lines 99-104):
after notifying `tUp` in cycle N and fetching nothing in cycle N+1, the key
`"1_movie.mkv"` is absent from the (empty) filtered keys of cycle N+1 yet is
still in `active_uploads`. -/
theorem prune_skipped_on_empty_snapshot :
    ("1_movie.mkv", some "running")
      ∈ (runCycle (fun _ => true) 20
          (runCycle (fun _ => true) 10 (initialState 0) [tUp]).st
          []).st.active_uploads := by decide

/-- C6 (amended): for every key in `active_uploads` that is absent from the
filtered keys of the next cycle, provided that next cycle's snapshot is
non-empty, the key is gone from `active_uploads` after the cycle (line 204),
and if its recorded status was not `"finished"` a completed-or-cancelled
event was logged for it (lines 189-193). -/
theorem stale_key_pruned
    (d : Transfer → Bool) (now : Nat) (st : MonState) (ts : List Transfer)
    (k : String) (v : Option String)
    (hne : ts ≠ [])
    (hlk : st.active_uploads.lookup k = some v)
    (habs : k ∉ snapshotKeys ts) :
    (runCycle d now st ts).st.active_uploads.lookup k = none
    ∧ (v ≠ some "finished" → k ∈ (runCycle d now st ts).completed_logged) := by
  have hkeys : ∀ t ∈ ts, passesFilter t = true → mkKey t ≠ k := by
    intro t ht hf heq
    exact habs (heq ▸ mem_snapshotKeys ht hf)
  have hfold : (foldCycle d st ts).st.active_uploads.lookup k = some v := by
    unfold foldCycle
    rw [fold_lookup_preserved d k ts (initAcc st) hkeys]
    exact hlk
  rw [runCycle_nonempty d now st ts (isEmpty_false_of_ne_nil hne)]
  constructor
  · exact lookup_pruneTable_none _ _ _ habs
  · intro hv
    exact mem_completedLogKeys (lookup_mem hfold) habs hv

/-- C6 witness: the running upload of cycle N disappears from the snapshot in
non-empty cycle N+1, so its key is pruned and logged. -/
theorem stale_key_pruned_witness :
    (runCycle (fun _ => true) 30
      (runCycle (fun _ => true) 0 (initialState 0) [tUp]).st
      [tDone]).st.active_uploads.lookup "1_movie.mkv" = none
    ∧ "1_movie.mkv" ∈ (runCycle (fun _ => true) 30
        (runCycle (fun _ => true) 0 (initialState 0) [tUp]).st
        [tDone]).completed_logged := by
  have h := stale_key_pruned (fun _ => true) 30
    (runCycle (fun _ => true) 0 (initialState 0) [tUp]).st [tDone]
    "1_movie.mkv" (some "running") (by decide) (by decide) (by decide)
  exact ⟨h.1, h.2 (by decide)⟩

/-- C3: once every name a cycle classified as newly detected has been
committed (all deliveries succeed, line 179), re-running the classification
on the same snapshot immediately afterwards yields an empty newly-detected
list. -/
theorem classify_idempotent
    (d1 d2 : Transfer → Bool) (now1 now2 : Nat) (st : MonState)
    (ts : List Transfer) (h : ∀ t ∈ ts, d1 t = true) :
    (runCycle d2 now2 (runCycle d1 now1 st ts).st ts).newly_detected = [] := by
  cases ts with
  | nil => rw [runCycle_empty]
  | cons t0 ts' =>
      have hfact : ∀ t ∈ t0 :: ts', passesFilter t = true →
          transferName t
            ∈ (runCycle d1 now1 st (t0 :: ts')).st.notified_files := by
        intro t ht hf
        have hmemf : transferName t
            ∈ (foldCycle d1 st (t0 :: ts')).st.notified_files :=
          fold_delivered_mem d1 (t0 :: ts') (initAcc st) t ht hf (h t ht)
        have hmemn : transferName t ∈ snapshotNames (t0 :: ts') :=
          mem_snapshotNames ht hf
        rw [runCycle_nonempty d1 now1 st (t0 :: ts') rfl]
        show transferName t ∈
          (if CLEANUP_INTERVAL < now1 - st.last_cleanup then
            (foldCycle d1 st (t0 :: ts')).st.notified_files
              ∩ snapshotNames (t0 :: ts')
          else (foldCycle d1 st (t0 :: ts')).st.notified_files)
        split
        · exact Finset.mem_inter.mpr ⟨hmemf, hmemn⟩
        · exact hmemf
      rw [runCycle_nonempty d2 now2 _ (t0 :: ts') rfl]
      show (foldCycle d2 (runCycle d1 now1 st (t0 :: ts')).st
        (t0 :: ts')).newly_detected = []
      unfold foldCycle
      rw [fold_no_new d2 (t0 :: ts') _ hfact]
      rfl

/-- C3 witness: committing a two-entry snapshot makes the immediate re-run
classify nothing. -/
theorem classify_idempotent_witness :
    (runCycle (fun _ => true) 1
      (runCycle (fun _ => true) 0 (initialState 0) [tUp, tDone]).st
      [tUp, tDone]).newly_detected = [] :=
  classify_idempotent (fun _ => true) (fun _ => true) 0 1 (initialState 0)
    [tUp, tDone] (fun _ _ => rfl)

theorem runTrace_keys_aux :
    ∀ (inputs : List CycleInput) (st : MonState) (K : Finset String),
      (∀ k ∈ st.active_uploads.map Prod.fst, k ∈ K) →
      ∀ k ∈ (runTrace st inputs).active_uploads.map Prod.fst,
        k ∈ lastKeys K inputs := by
  intro inputs
  induction inputs with
  | nil => intro st K h k hk; exact h k hk
  | cons i rest ih =>
      intro st K h
      show ∀ k ∈ (runTrace (runCycle i.deliver i.now st i.transfers).st
          rest).active_uploads.map Prod.fst,
        k ∈ lastKeys
          (if i.transfers.isEmpty then K else snapshotKeys i.transfers) rest
      cases hts : i.transfers with
      | nil =>
          exact ih (runCycle i.deliver i.now st []).st K
            (fun k hk => h k (by rw [runCycle_empty] at hk; exact hk))
      | cons t ts' =>
          refine ih _ (snapshotKeys (t :: ts')) ?_
          intro k hk
          rw [runCycle_nonempty i.deliver i.now st (t :: ts') rfl] at hk
          exact mem_pruneTable_keys hk

/-- C8: after any sequence of cycles from the initial state, the key set of
`active_uploads` is a subset of the TransferKeys of the most recent
non-empty snapshot (line 204 prunes to the current keys on every non-empty
cycle, and an empty cycle — which is also how a caught fetch error appears,
since `get_active_uploads` returns `[]` on failure — leaves the table
untouched). -/
theorem active_keys_subset_last_snapshot
    (t0 : Nat) (inputs : List CycleInput) (k : String)
    (hk : k ∈ (runTrace (initialState t0) inputs).active_uploads.map
      Prod.fst) :
    k ∈ lastKeys ∅ inputs :=
  runTrace_keys_aux inputs (initialState t0) ∅
    (fun _ hkk => absurd hkk (List.not_mem_nil _)) k hk

/-- C8 witness: the key recorded by a one-cycle trace is among the keys of
that trace's last non-empty snapshot. -/
theorem active_keys_subset_last_snapshot_witness :
    "1_movie.mkv" ∈ lastKeys ∅ [⟨fun _ => true, 0, [tUp]⟩] :=
  active_keys_subset_last_snapshot 0 [⟨fun _ => true, 0, [tUp]⟩]
    "1_movie.mkv" (by decide)
